import Mathlib

/-!
Verification of the note-based vehicle record codec and task-status parsing
of the gasmeupdev/hubspot-bff service (src/server.js, both revisions in the
file).

The service stores vehicle records as JSON text in CRM note bodies and
recovers them by `JSON.parse` plus field extraction; task status is encoded
as a "(N) " prefix on task subjects.  We shallowly embed the relevant pure
logic: a model of the JavaScript `JSON.parse` / `JSON.stringify` pair
(restricted to integer numeric literals, which is the only divergence from
the builtin and is never exercised by the note bodies at issue), the
decoder `parseVehiclesFromNotes`, the encoder path of `POST /vehicles/sync`
(`normalizeVehicleProps` plus the note-body construction), the
`GET /refills/history` subject parsing, refill classification and sort, and
the entry validation of both sync routes.
-/

namespace GasBff

/-- Model of a JavaScript JSON value as produced by `JSON.parse`:
null, booleans, numbers (restricted to integers in this model), strings,
arrays and objects (field list in textual order; later duplicates win on
property lookup, as in JS). -/
inductive Json where
  | jnull
  | jbool (b : Bool)
  | jnum (n : Int)
  | jstr (s : String)
  | jarr (elems : List Json)
  | jobj (fields : List (String × Json))

/-- JSON whitespace accepted by `JSON.parse`: space, tab, LF, CR. -/
def isJsonWs (c : Char) : Bool :=
  c = ' ' || c = '\t' || c = '\n' || c = '\r'

/-- Drop leading JSON whitespace. -/
def skipWsL (cs : List Char) : List Char :=
  cs.dropWhile isJsonWs

/-- Value of a hexadecimal digit character, as read by a `\uXXXX` escape. -/
def hexDigitVal (c : Char) : Option Nat :=
  if '0' ≤ c ∧ c ≤ '9' then some (c.toNat - 48)
  else if 'a' ≤ c ∧ c ≤ 'f' then some (c.toNat - 87)
  else if 'A' ≤ c ∧ c ≤ 'F' then some (c.toNat - 55)
  else none

/-- Lowercase hexadecimal digit for a value below 16 (as emitted by
`JSON.stringify`'s `\u00XX` escapes). -/
def hexChar (n : Nat) : Char :=
  if n < 10 then Char.ofNat (48 + n) else Char.ofNat (87 + n)

/-- Escape one character the way `JSON.stringify` quotes string contents:
quote and backslash get a backslash escape, the common control characters
get their short escapes, all other control characters below 0x20 get a
`\u00XX` escape, and everything else is emitted verbatim. -/
def escapeChar (c : Char) : List Char :=
  if c = '"' then ['\\', '"']
  else if c = '\\' then ['\\', '\\']
  else if c = Char.ofNat 8 then ['\\', 'b']
  else if c = '\t' then ['\\', 't']
  else if c = '\n' then ['\\', 'n']
  else if c = Char.ofNat 12 then ['\\', 'f']
  else if c = '\r' then ['\\', 'r']
  else if c.toNat < 32 then
    ['\\', 'u', '0', '0', hexChar (c.toNat / 16), hexChar (c.toNat % 16)]
  else [c]

/-- Escape a whole character sequence for a JSON string literal. -/
def escapeList : List Char → List Char
  | [] => []
  | c :: cs => escapeChar c ++ escapeList cs

/-- A quoted JSON string literal for `s`, as characters. -/
def quoteChars (s : String) : List Char :=
  '"' :: (escapeList s.data ++ ['"'])

mutual

/-- Characters of `JSON.stringify` applied to a value (compact form, no
extra whitespace, object fields in insertion order). -/
def printChars : Json → List Char
  | .jnull => ['n', 'u', 'l', 'l']
  | .jbool true => ['t', 'r', 'u', 'e']
  | .jbool false => ['f', 'a', 'l', 's', 'e']
  | .jnum n => (toString n).data
  | .jstr s => quoteChars s
  | .jarr xs => '[' :: (printCommaSep xs ++ [']'])
  | .jobj fs => '{' :: (printFieldsSep fs ++ ['}'])

/-- Comma-separated printed forms of array elements. -/
def printCommaSep : List Json → List Char
  | [] => []
  | x :: rest => printChars x ++ printElemsTail rest

/-- Separator-prefixed continuation of an array print. -/
def printElemsTail : List Json → List Char
  | [] => []
  | y :: rest => ',' :: (printChars y ++ printElemsTail rest)

/-- Comma-separated printed forms of object fields. -/
def printFieldsSep : List (String × Json) → List Char
  | [] => []
  | (k, v) :: rest => quoteChars k ++ ':' :: (printChars v ++ printFieldsTail rest)

/-- Separator-prefixed continuation of an object print. -/
def printFieldsTail : List (String × Json) → List Char
  | [] => []
  | (k, v) :: rest =>
    ',' :: (quoteChars k ++ ':' :: (printChars v ++ printFieldsTail rest))

end

/-- Prepend a character to the string component of a string-parse result. -/
def consStr (c : Char) (o : Option (List Char × List Char)) :
    Option (List Char × List Char) :=
  o.map (fun p => (c :: p.1, p.2))

/-- Decode the escape sequence following a backslash in a JSON string
literal: the single-character escapes `JSON.parse` accepts, or `\uXXXX`
with four hex digits; returns the decoded character and the remaining
input. -/
def decodeEsc : List Char → Option (Char × List Char)
  | [] => none
  | e :: r =>
    if e = '"' then some ('"', r)
    else if e = '\\' then some ('\\', r)
    else if e = '/' then some ('/', r)
    else if e = 'b' then some (Char.ofNat 8, r)
    else if e = 'f' then some (Char.ofNat 12, r)
    else if e = 'n' then some ('\n', r)
    else if e = 'r' then some ('\r', r)
    else if e = 't' then some ('\t', r)
    else if e = 'u' then
      match r with
      | h1 :: h2 :: h3 :: h4 :: r2 =>
        (match hexDigitVal h1, hexDigitVal h2, hexDigitVal h3, hexDigitVal h4 with
        | some a, some b, some c, some d =>
          some (Char.ofNat (4096 * a + 256 * b + 16 * c + d), r2)
        | _, _, _, _ => none)
      | _ => none
    else none

/-- Fuel-indexed worker for the string-literal parser; each step consumes
at least one input character, so the input length is sufficient fuel. -/
def parseStrAux : Nat → List Char → Option (List Char × List Char)
  | 0, _ => none
  | _ + 1, [] => none
  | fuel + 1, c :: rest =>
    if c = '"' then some ([], rest)
    else if c = '\\' then
      match decodeEsc rest with
      | some (d, r) => consStr d (parseStrAux fuel r)
      | none => none
    else if c.toNat < 32 then none
    else consStr c (parseStrAux fuel rest)

/-- Parse the body of a JSON string literal (after the opening quote) up to
and including the closing quote, handling the escapes `JSON.parse` accepts;
returns the decoded characters and the remaining input.  Unescaped control
characters are rejected, as in `JSON.parse`. -/
def parseStrChars (cs : List Char) : Option (List Char × List Char) :=
  parseStrAux cs.length cs

/-- Parse a JSON integer numeric literal (optional minus sign, digits, no
leading zeros).  Literals with a fraction or exponent are outside the
modelled fragment and are rejected. -/
def parseNum (cs : List Char) : Option (Json × List Char) :=
  let (sign, cs1) : Int × List Char :=
    match cs with
    | '-' :: rest => (-1, rest)
    | _ => (1, cs)
  let digits := cs1.takeWhile Char.isDigit
  let rest := cs1.dropWhile Char.isDigit
  if digits = [] then none
  else if 1 < digits.length ∧ digits.headD '0' = '0' then none
  else
    match rest with
    | '.' :: _ => none
    | 'e' :: _ => none
    | 'E' :: _ => none
    | _ =>
      let v : Nat := digits.foldl (fun acc d => 10 * acc + (d.toNat - 48)) 0
      some (.jnum (sign * (v : Int)), rest)

mutual

/-- Fuel-indexed model of `JSON.parse` for one value: leading whitespace,
then null/true/false, a string, an array, an object, or a number; returns
the value and the remaining input. -/
def parseValue : Nat → List Char → Option (Json × List Char)
  | 0, _ => none
  | fuel + 1, cs =>
    match skipWsL cs with
    | 'n' :: 'u' :: 'l' :: 'l' :: rest => some (.jnull, rest)
    | 't' :: 'r' :: 'u' :: 'e' :: rest => some (.jbool true, rest)
    | 'f' :: 'a' :: 'l' :: 's' :: 'e' :: rest => some (.jbool false, rest)
    | '"' :: rest =>
      (parseStrChars rest).map (fun p => (.jstr (String.mk p.1), p.2))
    | '[' :: rest =>
      (match skipWsL rest with
      | ']' :: r2 => some (.jarr [], r2)
      | r2 => (parseElems fuel r2).map (fun p => (.jarr p.1, p.2)))
    | '{' :: rest =>
      (match skipWsL rest with
      | '}' :: r2 => some (.jobj [], r2)
      | r2 => (parseFields fuel r2).map (fun p => (.jobj p.1, p.2)))
    | other => parseNum other

/-- Elements of a non-empty JSON array after the opening bracket. -/
def parseElems : Nat → List Char → Option (List Json × List Char)
  | 0, _ => none
  | fuel + 1, cs =>
    match parseValue fuel cs with
    | none => none
    | some (v, rest) =>
      match skipWsL rest with
      | ',' :: r2 => (parseElems fuel r2).map (fun p => (v :: p.1, p.2))
      | ']' :: r2 => some ([v], r2)
      | _ => none

/-- Fields of a non-empty JSON object after the opening brace. -/
def parseFields : Nat → List Char → Option (List (String × Json) × List Char)
  | 0, _ => none
  | fuel + 1, cs =>
    match skipWsL cs with
    | '"' :: rest =>
      (match parseStrChars rest with
      | none => none
      | some (k, r2) =>
        match skipWsL r2 with
        | ':' :: r3 =>
          (match parseValue fuel r3 with
          | none => none
          | some (v, r4) =>
            match skipWsL r4 with
            | ',' :: r5 =>
              (parseFields fuel r5).map (fun p => ((String.mk k, v) :: p.1, p.2))
            | '}' :: r5 => some ([(String.mk k, v)], r5)
            | _ => none)
        | _ => none)
    | _ => none

end

/-- Model of `JSON.parse`: parse one value and insist nothing but
whitespace follows; `none` models a thrown `SyntaxError`. -/
def jsonParse (s : String) : Option Json :=
  match parseValue (s.data.length + 1) s.data with
  | some (v, rest) => if (skipWsL rest).isEmpty then some v else none
  | none => none

mutual

/-- JavaScript `String(v)` / `v.toString()` on a JSON value: strings pass
through, numbers and booleans print, arrays join their members with commas
(null members becoming empty), plain objects become `[object Object]`. -/
def jsToString : Json → String
  | .jnull => "null"
  | .jbool true => "true"
  | .jbool false => "false"
  | .jnum n => toString n
  | .jstr s => s
  | .jarr xs => String.intercalate "," (jsArrStrings xs)
  | .jobj _ => "[object Object]"

/-- Member strings for `Array.prototype.toString` (null renders empty). -/
def jsArrStrings : List Json → List String
  | [] => []
  | .jnull :: rest => "" :: jsArrStrings rest
  | x :: rest => jsToString x :: jsArrStrings rest

end

/-- Property read on a parsed JSON object: the textually last binding of a
duplicated key wins, as in the object `JSON.parse` builds. -/
def jsGet (fs : List (String × Json)) (k : String) : Option Json :=
  fs.foldl (fun acc p => if p.1 = k then some p.2 else acc) none

/-- JavaScript `\s` (the whitespace class used by `String.prototype.trim`
and regexes): ASCII whitespace, NBSP, the Unicode space separators, the
line separators and the BOM. -/
def isJsSpace (c : Char) : Bool :=
  let n := c.toNat
  n = 9 || n = 10 || n = 11 || n = 12 || n = 13 || n = 32 || n = 160 ||
  n = 0x1680 || (0x2000 ≤ n && n ≤ 0x200a) || n = 0x2028 || n = 0x2029 ||
  n = 0x202f || n = 0x205f || n = 0x3000 || n = 0xfeff

/-- ECMAScript line terminators (the characters `.` does not match). -/
def isLineTermChar (c : Char) : Bool :=
  let n := c.toNat
  n = 10 || n = 13 || n = 0x2028 || n = 0x2029

/-- JavaScript `String.prototype.trim`. -/
def jsTrim (s : String) : String :=
  String.mk (((s.data.dropWhile isJsSpace).reverse.dropWhile isJsSpace).reverse)

/-- JavaScript `String.prototype.toLowerCase` (ASCII range suffices for the
subjects at issue). -/
def jsToLower (s : String) : String :=
  String.mk (s.data.map Char.toLower)

/-- JavaScript `String.prototype.toUpperCase` (ASCII range suffices for the
statuses at issue). -/
def jsToUpper (s : String) : String :=
  String.mk (s.data.map Char.toUpper)

/-- JavaScript `String.prototype.startsWith` on our string model. -/
def jsStartsWith (s p : String) : Bool :=
  p.data.isPrefixOf s.data

/-- Does `n` occur as a contiguous segment of `h`? -/
def segIn (n h : List Char) : Bool :=
  match h with
  | [] => n.isEmpty
  | _ :: t => n.isPrefixOf h || segIn n t

/-- JavaScript `String.prototype.includes`. -/
def jsIncludes (hay needle : String) : Bool :=
  segIn needle.data hay.data

-- -----------------------------------------------------------------------
-- Vehicle notes: decoder (`parseVehiclesFromNotes`, second revision of
-- src/server.js) and encoder (`POST /vehicles/sync` note construction).
-- -----------------------------------------------------------------------

/-- A CRM note as the decoder sees it: its id and the optional
`hs_note_body` property. -/
structure Note where
  id : String
  hs_note_body : Option String

/-- The vehicle object `parseVehiclesFromNotes` pushes for one note, field
for field in source order. -/
structure Vehicle where
  id : String
  make : String
  model : String
  year : String
  color : String
  plate : String
  name : String
  deriving DecidableEq

/-- JavaScript `(obj.k ?? "").toString()` for `obj` a parsed JSON value:
property reads on non-objects yield undefined hence the empty string, and
a null property value is also replaced by the empty string.  (The caller
has already ruled out `obj` itself being null.) -/
def jsFieldRead (v : Json) (k : String) : String :=
  match v with
  | .jobj fs =>
    match jsGet fs k with
    | none => ""
    | some .jnull => ""
    | some w => jsToString w
  | _ => ""

/-- One iteration of the `parseVehiclesFromNotes` loop: skip notes with an
empty body, notes whose body fails `JSON.parse` (the catch branch), and
notes parsing to `null` (where `obj.make` throws a `TypeError`, also
caught); otherwise build the vehicle object. -/
def noteToVehicle (n : Note) : Option Vehicle :=
  let body := n.hs_note_body.getD ""
  if body = "" then none
  else
    match jsonParse body with
    | none => none
    | some .jnull => none
    | some v =>
      some ⟨n.id, jsFieldRead v "make", jsFieldRead v "model",
        jsFieldRead v "year", jsFieldRead v "color", jsFieldRead v "plate",
        jsFieldRead v "name"⟩

/-- `parseVehiclesFromNotes` (src/server.js lines 352-378): one vehicle per
note whose body parses, in note order.  (The non-array input guard is
subsumed by the typed note list.) -/
def parseVehiclesFromNotes : List Note → List Vehicle
  | [] => []
  | n :: rest =>
    match noteToVehicle n with
    | some v => v :: parseVehiclesFromNotes rest
    | none => parseVehiclesFromNotes rest

/-- Result of `normalizeVehicleProps`: `name` is always set afterwards, the
other recognized keys are present only when the input had them non-null. -/
structure NormProps where
  name : String
  make : Option String
  model : Option String
  year : Option String
  color : Option String
  plate : Option String

/-- The `hasOwnProperty` + `val != null` + `String(val)` step of
`normalizeVehicleProps` for one key. -/
def jsOwnString (obj : List (String × Json)) (k : String) : Option String :=
  match jsGet obj k with
  | none => none
  | some .jnull => none
  | some v => some (jsToString v)

/-- A derived-name part: a recognized value contributes when truthy. -/
def optPart : Option String → List String
  | none => []
  | some s => if s = "" then [] else [s]

/-- `normalizeVehicleProps` (src/server.js lines 498-520): keep the
recognized keys as strings, then default `name` to `"year make model"`
(space-joined over the truthy parts) or `"Vehicle " + Date.now()` when no
truthy name was given.  `now` stands for the `Date.now().toString()`
value. -/
def normalizeVehicleProps (now : String) (obj : List (String × Json)) : NormProps :=
  let name0 := jsOwnString obj "name"
  let make := jsOwnString obj "make"
  let model := jsOwnString obj "model"
  let year := jsOwnString obj "year"
  let color := jsOwnString obj "color"
  let plate := jsOwnString obj "plate"
  let parts := optPart year ++ optPart make ++ optPart model
  let derived := if parts = [] then "Vehicle " ++ now else String.intercalate " " parts
  let name :=
    match name0 with
    | none => derived
    | some s => if s = "" then derived else s
  ⟨name, make, model, year, color, plate⟩

/-- The note body written by `POST /vehicles/sync` for one raw vehicle
object (src/server.js lines 561-572): `normalizeVehicleProps`, then the
`JSON.stringify` of the six recognized keys in insertion order, absent ones
as empty strings (`createNote` stringifies the object). -/
def encodeVehicleSync (now : String) (v : List (String × Json)) : String :=
  let p := normalizeVehicleProps now v
  String.mk (printChars (.jobj
    [("name", .jstr p.name), ("make", .jstr (p.make.getD "")),
     ("model", .jstr (p.model.getD "")), ("year", .jstr (p.year.getD "")),
     ("color", .jstr (p.color.getD "")), ("plate", .jstr (p.plate.getD ""))]))

/-- A vehicle record as the spec's data model describes it: each recognized
field either populated (with any string) or absent. -/
structure VehicleRecord where
  name : Option String
  make : Option String
  model : Option String
  year : Option String
  color : Option String
  plate : Option String

/-- The request object a `VehicleRecord` denotes: one JSON string property
per populated field. -/
def toObj (r : VehicleRecord) : List (String × Json) :=
  (match r.name with | some s => [("name", Json.jstr s)] | none => []) ++
  (match r.make with | some s => [("make", Json.jstr s)] | none => []) ++
  (match r.model with | some s => [("model", Json.jstr s)] | none => []) ++
  (match r.year with | some s => [("year", Json.jstr s)] | none => []) ++
  (match r.color with | some s => [("color", Json.jstr s)] | none => []) ++
  (match r.plate with | some s => [("plate", Json.jstr s)] | none => [])

/-- The name the encode side settles on for a record: the record's own name
when truthy, else the space-joined truthy parts of year/make/model, else
the `"Vehicle " + Date.now()` fallback. -/
def expectedName (r : VehicleRecord) (now : String) : String :=
  let parts := optPart r.year ++ optPart r.make ++ optPart r.model
  let derived := if parts = [] then "Vehicle " ++ now else String.intercalate " " parts
  match r.name with
  | none => derived
  | some s => if s = "" then derived else s

-- -----------------------------------------------------------------------
-- Refill history: subject/status parsing, refill classification, sorting
-- (`GET /refills/history`, src/server.js lines 852-976).
-- -----------------------------------------------------------------------

/-- The JavaScript regex match `rawSubject.match(/^\((\d)\)\s*(.*)$/)`:
an opening paren, one digit, a closing paren, then greedy `\s*`; the match
succeeds exactly when what remains after the whitespace run contains no
line terminator (since `.` cannot cross one and `$` anchors at the very
end), and the capture is that remainder. -/
def matchStatusShape (s : String) : Option (Nat × String) :=
  match s.data with
  | '(' :: c :: ')' :: rest =>
    if c.isDigit then
      let tail := rest.dropWhile isJsSpace
      if tail.all (fun ch => !isLineTermChar ch) then
        some (c.toNat - 48, String.mk tail)
      else none
    else none
  | _ => none

/-- The fallback of the history mapper when the subject has no `(N)`
prefix: derive the code from the HubSpot task status. -/
def hsFallbackCode (hsStatus : String) : Nat :=
  let u := jsToUpper hsStatus
  if u = "COMPLETED" then 1
  else if u = "CANCELED" || u = "DEFERRED" then 2
  else 0

/-- The `(statusCode, subject)` pair the `GET /refills/history` mapper
computes from a raw subject and the task's HubSpot status (src/server.js
lines 910-946).  On a match, `parseInt(d, 10) || 0` is the digit itself and
`match[2] || ""` is the captured remainder. -/
def refillStatusOf (rawSubject hsStatus : String) : Nat × String :=
  match matchStatusShape rawSubject with
  | some (d, tail) => (d, tail)
  | none => (hsFallbackCode hsStatus, rawSubject)

/-- The status label the mapper attaches to a code. -/
def statusLabelOf (code : Nat) : String :=
  if code = 1 then "Completed" else if code = 2 then "Canceled" else "In progress"

/-- The refill-classification test of the `refillTasks` filter
(src/server.js lines 900-907), applied to the trimmed subject: a literal
`(0)`/`(1)`/`(2)` start, or `refill` inside the lower-cased subject. -/
def isRefillSubject (s : String) : Bool :=
  let lower := jsToLower s
  let hasParenCode :=
    jsStartsWith s "(0)" || jsStartsWith s "(1)" || jsStartsWith s "(2)"
  let containsRefill := jsIncludes lower "refill"
  hasParenCode || containsRefill

/-- A mapped history entry as far as the final sort is concerned. -/
structure RefillItem where
  id : String
  subject : String
  timestamp : Option String
  statusCode : Nat
  deriving DecidableEq

/-- The numeric sort key `a.timestamp ? Date.parse(a.timestamp) : 0` under
a `Date.parse` oracle `dp`; `none` is `NaN` (an unparseable timestamp), a
missing or empty timestamp is epoch 0. -/
def refillKey (dp : String → Option Int) (x : RefillItem) : Option Int :=
  match x.timestamp with
  | none => some 0
  | some s => if s = "" then some 0 else dp s

/-- The comparator result `bTime - aTime` after the ECMAScript rule that a
NaN comparator value is treated as `+0`. -/
def refillCmp (dp : String → Option Int) (a b : RefillItem) : Int :=
  match refillKey dp b, refillKey dp a with
  | some kb, some ka => kb - ka
  | _, _ => 0

/-- Insert for a stable comparator sort: the incoming (originally earlier)
element goes before the first element it need not follow. -/
def insertLe {α : Type} (le : α → α → Bool) (x : α) : List α → List α
  | [] => [x]
  | y :: ys => if le x y then x :: y :: ys else y :: insertLe le x ys

/-- A stable comparator sort (insertion sort).  `Array.prototype.sort` is
stable, and every stable sort agrees with this one whenever the comparator
is consistent. -/
def jsSortWith {α : Type} (le : α → α → Bool) : List α → List α
  | [] => []
  | x :: xs => insertLe le x (jsSortWith le xs)

/-- The newest-first sort of the mapped history entries (src/server.js
lines 958-963): stable sort by the comparator `(a, b) => bTime - aTime`. -/
def sortRefills (dp : String → Option Int) (xs : List RefillItem) : List RefillItem :=
  jsSortWith (fun a b => refillCmp dp a b ≤ 0) xs

-- -----------------------------------------------------------------------
-- Vehicle sync: entry validation of both sync routes and the best-effort
-- delete-then-recreate sequence.
-- -----------------------------------------------------------------------

/-- A sync request body: the `email` and `vehicles` members as the JSON
values present (or absent) in the request. -/
structure SyncReqBody where
  email : Option Json
  vehicles : Option Json

/-- JavaScript `(x ?? "").toString()` on an optional member: absent and
null become empty, everything else stringifies. -/
def jsToStringOrEmpty (o : Option Json) : String :=
  match o with
  | none => ""
  | some .jnull => ""
  | some v => jsToString v

/-- JavaScript truthiness of a JSON value. -/
def jsTruthy (v : Json) : Bool :=
  match v with
  | .jnull => false
  | .jbool b => b
  | .jnum n => !(n = 0)
  | .jstr s => !(s = "")
  | .jarr _ => true
  | .jobj _ => true

/-- What `POST /vehicles/sync` (second revision, src/server.js lines
523-539) does before its first remote call: trim the stringified email,
coerce a non-array `vehicles` member to `[]`, and reject with 400 only when
the email is empty; otherwise proceed to the contact search with the email
and the coerced vehicle list. -/
def vehiclesSyncEntry (b : SyncReqBody) : Sum Nat (String × List Json) :=
  let email := jsTrim (jsToStringOrEmpty b.email)
  let rawVehicles :=
    match b.vehicles with
    | some (.jarr xs) => xs
    | _ => []
  if email = "" then .inl 400 else .inr (email, rawVehicles)

/-- What `POST /api/hubspot/vehicles/sync` (first revision, src/server.js
lines 114-119) does before its first remote call: reject with 400 when the
email is falsy or `vehicles` is not an array, else proceed. -/
def apiVehiclesSyncEntry (b : SyncReqBody) : Sum Nat (Json × List Json) :=
  let emailTruthy :=
    match b.email with
    | none => false
    | some v => jsTruthy v
  match b.vehicles with
  | some (.jarr xs) => if emailTruthy then .inr (b.email.getD .jnull, xs) else .inl 400
  | _ => .inl 400

/-- Outcome of the second revision's delete-then-recreate body
(src/server.js lines 548-579) under a per-note deletion oracle: each note
deletion is individually try/caught, failures are only collected as
warnings, and the creation loop then encodes every requested vehicle. -/
structure SyncExecResult where
  failedDeletes : List String
  createdBodies : List String

/-- Run of the `POST /vehicles/sync` delete loop plus create loop:
`delOk i = false` means `hs.delete` rejected for note `i` (the catch
branch logs and continues). -/
def syncV2Run (delOk : String → Bool) (ids : List String)
    (vehicles : List (List (String × Json))) (now : String) : SyncExecResult :=
  ⟨ids.filter (fun i => !delOk i), vehicles.map (fun v => encodeVehicleSync now v)⟩

/-- Slicing worker for `chunks80`, structurally recursive on a fuel bound
by the list length. -/
def chunksAux : Nat → List String → List (List String)
  | 0, _ => []
  | _, [] => []
  | fuel + 1, x :: xs => (x :: xs.take 79) :: chunksAux fuel (xs.drop 79)

/-- Batches of at most 80 ids, as `deleteNotes` (first revision,
src/server.js lines 60-67) slices them. -/
def chunks80 (l : List String) : List (List String) :=
  chunksAux l.length l

/-- `deleteNotes` of the first revision succeeds only when every batch
archive call succeeds; it has no internal catch, so any batch failure
throws out of the whole handler. -/
def deleteNotesV1ok (batchOk : List String → Bool) (ids : List String) : Bool :=
  (chunks80 ids).all batchOk

/-- Run of the first revision's `POST /api/hubspot/vehicles/sync`
delete-then-create sequence: a `deleteNotes` failure propagates to the
handler's catch (a server error; in particular the creation loop is never
reached), otherwise all vehicles are created. -/
def syncV1Run (batchOk : List String → Bool) (ids : List String)
    (nVehicles : Nat) : Except Nat Nat :=
  if deleteNotesV1ok batchOk ids then .ok nVehicles else .error 500

-- -----------------------------------------------------------------------
-- Claim-specific auxiliary definitions.
-- -----------------------------------------------------------------------

/-- The JSON object shape of every note body written by
`POST /vehicles/sync`: the six recognized keys, in insertion order, with
string values. -/
def noteJson (nm mk2 md yr cl pl : String) : Json :=
  .jobj [("name", .jstr nm), ("make", .jstr mk2), ("model", .jstr md),
         ("year", .jstr yr), ("color", .jstr cl), ("plate", .jstr pl)]

/-- The round-trip property exactly as the claim states it: decoding the
encoded record gives back `r` with absent fields normalized to the empty
string (the note id is threaded through unchanged). -/
def roundTripClaim (r : VehicleRecord) (now id : String) : Prop :=
  parseVehiclesFromNotes [⟨id, some (encodeVehicleSync now (toObj r))⟩] =
    [⟨id, r.make.getD "", r.model.getD "", r.year.getD "", r.color.getD "",
      r.plate.getD "", r.name.getD ""⟩]

/-- The sort key the claim attributes to an entry: the parsed timestamp,
with missing or unparseable timestamps counting as time 0. -/
def claimRefillKey (dp : String → Option Int) (x : RefillItem) : Int :=
  match x.timestamp with
  | none => 0
  | some s => if s = "" then 0 else (dp s).getD 0

/-- A `Date.parse` oracle under which `"g"` parses and everything else is
unparseable (`NaN`). -/
def dpBad : String → Option Int :=
  fun s => if s = "g" then some 5 else none

-- -----------------------------------------------------------------------
-- Helper lemmas.
-- -----------------------------------------------------------------------

/-- Rebuilding a string from its characters is the identity. -/
theorem stringMk_data (s : String) : String.mk s.data = s := rfl

/-- A note whose body is empty, fails to parse, or parses to `null`
contributes no vehicle. -/
theorem noteToVehicle_none_of (bad : Note)
    (h : bad.hs_note_body.getD "" = "" ∨
      jsonParse (bad.hs_note_body.getD "") = none ∨
      jsonParse (bad.hs_note_body.getD "") = some .jnull) :
    noteToVehicle bad = none := by
  rcases h with h | h | h
  · simp [noteToVehicle, h]
  · by_cases hb : bad.hs_note_body.getD "" = ""
    · simp [noteToVehicle, hb]
    · simp [noteToVehicle, hb, h]
  · by_cases hb : bad.hs_note_body.getD "" = ""
    · simp [noteToVehicle, hb]
    · simp [noteToVehicle, hb, h]

/-- Characterization of `List.isPrefixOf` by a decomposition. -/
theorem prefixOf_iff (p l : List Char) :
    p.isPrefixOf l = true ↔ ∃ t, l = p ++ t := by
  induction p generalizing l with
  | nil => simp [List.isPrefixOf]
  | cons a as ih =>
    cases l with
    | nil => simp [List.isPrefixOf]
    | cons b bs =>
      simp only [List.isPrefixOf, Bool.and_eq_true, beq_iff_eq, ih,
        List.cons_append, List.cons.injEq]
      constructor
      · rintro ⟨rfl, t, rfl⟩
        exact ⟨t, rfl, rfl⟩
      · rintro ⟨t, rfl, rfl⟩
        exact ⟨rfl, t, rfl⟩

/-- Characterization of `segIn` (hence `String.prototype.includes`) by a
decomposition. -/
theorem segIn_iff (n h : List Char) :
    segIn n h = true ↔ ∃ pre post, h = pre ++ n ++ post := by
  induction h with
  | nil =>
    simp only [segIn, List.isEmpty_iff]
    constructor
    · rintro rfl
      exact ⟨[], [], rfl⟩
    · rintro ⟨pre, post, hx⟩
      rcases List.append_eq_nil.mp hx.symm with ⟨h1, h2⟩
      exact (List.append_eq_nil.mp h1).2
  | cons c t ih =>
    simp only [segIn, Bool.or_eq_true, prefixOf_iff, ih]
    constructor
    · rintro (⟨s, hs⟩ | ⟨pre, post, hp⟩)
      · exact ⟨[], s, by simpa using hs⟩
      · exact ⟨c :: pre, post, by simp [hp]⟩
    · rintro ⟨pre, post, hp⟩
      cases pre with
      | nil => exact Or.inl ⟨post, by simpa using hp⟩
      | cons d pre2 =>
        rcases (List.cons.injEq _ _ _ _).mp (by simpa using hp) with ⟨rfl, h2⟩
        exact Or.inr ⟨pre2, post, by simp [h2]⟩

-- -----------------------------------------------------------------------
-- C2: acceptance threshold.
-- -----------------------------------------------------------------------

/-- C2, counterexample: the claim says decoding `{"color":"red"}` yields no
record (fewer than 2 recognized fields), yet `parseVehiclesFromNotes`
accepts it and produces a record with only the color set. -/
theorem c2_counterexample :
    parseVehiclesFromNotes [⟨"n1", some "\x7b\"color\":\"red\"\x7d"⟩] =
      [⟨"n1", "", "", "", "red", "", ""⟩] ∧
    parseVehiclesFromNotes [⟨"n1", some "\x7b\"color\":\"red\"\x7d"⟩] ≠ [] := by
  constructor
  · rfl
  · intro h
    rw [show parseVehiclesFromNotes [⟨"n1", some "\x7b\"color\":\"red\"\x7d"⟩] =
      [⟨"n1", "", "", "", "red", "", ""⟩] from rfl] at h
    exact List.noConfusion h

/-- C2, amended: `parseVehiclesFromNotes` applies no field-count threshold
at all — a note yields a record exactly when its body is non-empty and
parses as JSON to a non-null value. -/
theorem c2_amended_acceptance (n : Note) :
    parseVehiclesFromNotes [n] ≠ [] ↔
      (n.hs_note_body.getD "" ≠ "" ∧
        ∃ v, jsonParse (n.hs_note_body.getD "") = some v ∧ v ≠ Json.jnull) := by
  by_cases hb : n.hs_note_body.getD "" = ""
  · simp [parseVehiclesFromNotes, noteToVehicle, hb]
  · cases hp : jsonParse (n.hs_note_body.getD "") with
    | none => simp [parseVehiclesFromNotes, noteToVehicle, hb, hp]
    | some v =>
      cases v <;>
        simp [parseVehiclesFromNotes, noteToVehicle, hb, hp]

-- -----------------------------------------------------------------------
-- C3: decode totality / skip semantics.
-- -----------------------------------------------------------------------

/-- C3: a corrupt stored blob — empty body, malformed JSON, or a `null`
body — is simply skipped: the decoded list over the remaining notes is
unchanged, so one bad note never blocks the others (and the decoder is a
total function by construction). -/
theorem c3_decode_skip (xs ys : List Note) (bad : Note)
    (h : bad.hs_note_body.getD "" = "" ∨
      jsonParse (bad.hs_note_body.getD "") = none ∨
      jsonParse (bad.hs_note_body.getD "") = some .jnull) :
    parseVehiclesFromNotes (xs ++ bad :: ys) = parseVehiclesFromNotes (xs ++ ys) := by
  have hbad := noteToVehicle_none_of bad h
  induction xs with
  | nil => simp [parseVehiclesFromNotes, hbad]
  | cons n rest ih =>
    simp only [List.cons_append, parseVehiclesFromNotes]
    cases noteToVehicle n <;> simp [ih]

/-- C3, witness: a note reading `not json at all` between two valid vehicle
notes is skipped and the others decode as if it were absent. -/
theorem c3_witness :
    jsonParse "not json at all" = none ∧
    parseVehiclesFromNotes
      [⟨"a", some "\x7b\"make\":\"Kia\",\"model\":\"Soul\"\x7d"⟩,
       ⟨"x", some "not json at all"⟩,
       ⟨"b", some "\x7b\"make\":\"Ford\",\"model\":\"F150\"\x7d"⟩] =
    parseVehiclesFromNotes
      [⟨"a", some "\x7b\"make\":\"Kia\",\"model\":\"Soul\"\x7d"⟩,
       ⟨"b", some "\x7b\"make\":\"Ford\",\"model\":\"F150\"\x7d"⟩] :=
  ⟨rfl, c3_decode_skip
    [⟨"a", some "\x7b\"make\":\"Kia\",\"model\":\"Soul\"\x7d"⟩]
    [⟨"b", some "\x7b\"make\":\"Ford\",\"model\":\"F150\"\x7d"⟩]
    ⟨"x", some "not json at all"⟩ (Or.inr (Or.inl rfl))⟩

-- -----------------------------------------------------------------------
-- C4: fallback chain.
-- -----------------------------------------------------------------------

/-- C4, counterexample: the claim says HTML-wrapped JSON is unwrapped and
decoded, yet decoding `<p>{"make":"Honda","model":"Civic"}</p>` yields no
record at all. -/
theorem c4_counterexample :
    parseVehiclesFromNotes
      [⟨"n1", some "<p>\x7b\"make\":\"Honda\",\"model\":\"Civic\"\x7d</p>"⟩] = [] ∧
    ¬ ∃ v ∈ parseVehiclesFromNotes
      [⟨"n1", some "<p>\x7b\"make\":\"Honda\",\"model\":\"Civic\"\x7d</p>"⟩],
        v.make = "Honda" ∧ v.model = "Civic" := by
  constructor
  · rfl
  · rintro ⟨v, hv, -⟩
    rw [show parseVehiclesFromNotes
      [⟨"n1", some "<p>\x7b\"make\":\"Honda\",\"model\":\"Civic\"\x7d</p>"⟩] =
      ([] : List Vehicle) from rfl] at hv
    exact (List.not_mem_nil v) hv

/-- C4, amended: there is no fallback chain at all — when direct JSON
parsing of a note body fails, the note is skipped entirely (no HTML
stripping, no embedded-block extraction). -/
theorem c4_amended_no_fallback (n : Note)
    (h : jsonParse (n.hs_note_body.getD "") = none) :
    parseVehiclesFromNotes [n] = [] := by
  simp [parseVehiclesFromNotes,
    noteToVehicle_none_of n (Or.inr (Or.inl h))]

/-- C4, witness: the HTML-wrapped body from the claim fails direct JSON
parsing, so the amended theorem applies and the note decodes to nothing. -/
theorem c4_witness :
    jsonParse "<p>\x7b\"make\":\"Honda\",\"model\":\"Civic\"\x7d</p>" = none ∧
    parseVehiclesFromNotes
      [⟨"n7", some "<p>\x7b\"make\":\"Honda\",\"model\":\"Civic\"\x7d</p>"⟩] = [] :=
  ⟨rfl, c4_amended_no_fallback
    ⟨"n7", some "<p>\x7b\"make\":\"Honda\",\"model\":\"Civic\"\x7d</p>"⟩ rfl⟩

-- -----------------------------------------------------------------------
-- C5: alias unification.
-- -----------------------------------------------------------------------

/-- C5, counterexample: the claim says the `plate` and `licensePlate`
spellings decode to the same canonical license-plate value, yet the
decoder reads only the `plate` key, so the two texts from the claim decode
to different plate values. -/
theorem c5_counterexample :
    ¬ ((parseVehiclesFromNotes
        [⟨"n1", some "\x7b\"make\":\"Kia\",\"model\":\"Soul\",\"plate\":\"ABC123\"\x7d"⟩]).map
          Vehicle.plate =
      (parseVehiclesFromNotes
        [⟨"n2", some "\x7b\"make\":\"Kia\",\"model\":\"Soul\",\"licensePlate\":\"ABC123\"\x7d"⟩]).map
          Vehicle.plate) := by
  decide

/-- C5, amended: `parseVehiclesFromNotes` reads the single fixed key
`plate`; a body using the `licensePlate` alias decodes with an empty plate
while the `plate` spelling is preserved, so the aliases are not unified. -/
theorem c5_amended_single_key :
    parseVehiclesFromNotes
      [⟨"n1", some "\x7b\"make\":\"Kia\",\"model\":\"Soul\",\"plate\":\"ABC123\"\x7d"⟩] =
      [⟨"n1", "Kia", "Soul", "", "", "ABC123", ""⟩] ∧
    parseVehiclesFromNotes
      [⟨"n2", some "\x7b\"make\":\"Kia\",\"model\":\"Soul\",\"licensePlate\":\"ABC123\"\x7d"⟩] =
      [⟨"n2", "Kia", "Soul", "", "", "", ""⟩] :=
  ⟨rfl, rfl⟩

-- -----------------------------------------------------------------------
-- C6: task status parsing.
-- -----------------------------------------------------------------------

/-- C6, counterexample: on the subject `(5) Foo` the claim predicts code 0
with the subject unchanged, but the code accepts any digit: the result is
code 5 with the prefix stripped. -/
theorem c6_counterexample :
    refillStatusOf "(5) Foo" "" ≠ (0, "(5) Foo") ∧
    refillStatusOf "(5) Foo" "" = (5, "Foo") := by
  constructor
  · intro h
    rw [show refillStatusOf "(5) Foo" "" = ((5 : Nat), "Foo") from rfl] at h
    simp at h
  · rfl

/-- C6, amended: a leading `(d)` for any digit `d` is accepted — the code
is `d` and the subject is the remainder after the greedy whitespace run
(provided that remainder crosses no line terminator) — while a subject not
starting with `(` falls back to the HubSpot task status for its code and
keeps the subject unchanged. -/
theorem c6_amended_status :
    (∀ (c : Char) (rest : List Char) (st : String), c.isDigit = true →
      (rest.dropWhile isJsSpace).all (fun ch => !isLineTermChar ch) = true →
      refillStatusOf (String.mk ('(' :: c :: ')' :: rest)) st =
        (c.toNat - 48, String.mk (rest.dropWhile isJsSpace))) ∧
    (∀ (s st : String), s.data.head? ≠ some '(' →
      refillStatusOf s st = (hsFallbackCode st, s)) := by
  constructor
  · intro c rest st hd hall
    simp [refillStatusOf, matchStatusShape, hd, hall]
  · intro s st h
    have hm : matchStatusShape s = none := by
      unfold matchStatusShape
      split
      · next c rest heq =>
        exact absurd (by rw [heq]; rfl) h
      · rfl
    simp [refillStatusOf, hm]

/-- C6, witness: the two status-parse examples from the spec, obtained from
the amended theorem — a `(1)`-prefixed subject parses to code 1 with the
prefix stripped, and an unprefixed subject on a COMPLETED task falls back
to code 1 with the subject unchanged. -/
theorem c6_witness :
    refillStatusOf "(1) Refill request - Truck" "" =
      (1, "Refill request - Truck") ∧
    refillStatusOf "Refill request - Truck" "COMPLETED" =
      (1, "Refill request - Truck") := by
  constructor
  · exact c6_amended_status.1 '1' (" Refill request - Truck".data) ""
      (by decide) (by decide)
  · exact c6_amended_status.2 "Refill request - Truck" "COMPLETED" (by decide)

-- -----------------------------------------------------------------------
-- C7: refill classification.
-- -----------------------------------------------------------------------

/-- C7: the refill filter holds exactly when the lower-cased subject
contains `refill` as a segment or the subject itself begins with one of
the literal prefixes `(0)`, `(1)`, `(2)`. -/
theorem c7_refill_classification (s : String) :
    isRefillSubject s = true ↔
      ((∃ pre post, (jsToLower s).data = pre ++ "refill".data ++ post) ∨
       (∃ t, s.data = "(0)".data ++ t) ∨
       (∃ t, s.data = "(1)".data ++ t) ∨
       (∃ t, s.data = "(2)".data ++ t)) := by
  simp only [isRefillSubject, jsStartsWith, jsIncludes, Bool.or_eq_true,
    prefixOf_iff, segIn_iff]
  constructor
  · rintro (((h | h) | h) | h)
    · exact Or.inr (Or.inl h)
    · exact Or.inr (Or.inr (Or.inl h))
    · exact Or.inr (Or.inr (Or.inr h))
    · exact Or.inl h
  · rintro (h | h | h | h)
    · exact Or.inr h
    · exact Or.inl (Or.inl (Or.inl h))
    · exact Or.inl (Or.inl (Or.inr h))
    · exact Or.inl (Or.inr h)

-- -----------------------------------------------------------------------
-- C8: sync input validation.
-- -----------------------------------------------------------------------

/-- C8, counterexample: a `POST /vehicles/sync` request with an email but
no `vehicles` member is not rejected — the handler coerces the missing
list to `[]` and proceeds to the contact search (its first remote call),
after which it deletes the contact's existing notes. -/
theorem c8_counterexample :
    vehiclesSyncEntry ⟨some (.jstr "a@b.c"), none⟩ = .inr ("a@b.c", []) ∧
    ∀ code : Nat, vehiclesSyncEntry ⟨some (.jstr "a@b.c"), none⟩ ≠ .inl code := by
  constructor
  · rfl
  · intro code h
    rw [show vehiclesSyncEntry ⟨some (.jstr "a@b.c"), none⟩ =
      Sum.inr ("a@b.c", ([] : List Json)) from rfl] at h
    exact Sum.noConfusion h

/-- C8, amended: both sync routes reject a missing/empty email with 400
before any remote call, and `POST /api/hubspot/vehicles/sync` also rejects
a missing vehicle list — but `POST /vehicles/sync` instead coerces a
missing vehicle list to `[]` and proceeds. -/
theorem c8_amended_validation :
    (∀ b : SyncReqBody, jsTrim (jsToStringOrEmpty b.email) = "" →
      vehiclesSyncEntry b = .inl 400) ∧
    (∀ b : SyncReqBody, b.vehicles = none → apiVehiclesSyncEntry b = .inl 400) ∧
    (∀ b : SyncReqBody, jsTrim (jsToStringOrEmpty b.email) ≠ "" →
      b.vehicles = none →
      vehiclesSyncEntry b = .inr (jsTrim (jsToStringOrEmpty b.email), [])) := by
  refine ⟨fun b h => ?_, fun b h => ?_, fun b h1 h2 => ?_⟩
  · simp [vehiclesSyncEntry, h]
  · simp [apiVehiclesSyncEntry, h]
  · simp [vehiclesSyncEntry, h1, h2]

/-- C8, witness: the amended theorem applied at concrete request bodies —
a whitespace-only email is rejected by `POST /vehicles/sync`, a missing
vehicle list is rejected by `POST /api/hubspot/vehicles/sync`, and the
same missing list is coerced to `[]` by `POST /vehicles/sync`. -/
theorem c8_witness :
    vehiclesSyncEntry ⟨some (.jstr "  "), some (.jarr [])⟩ = .inl 400 ∧
    apiVehiclesSyncEntry ⟨some (.jstr "a@b.c"), none⟩ = .inl 400 ∧
    vehiclesSyncEntry ⟨some (.jstr "a@b.c"), none⟩ = .inr ("a@b.c", []) :=
  ⟨c8_amended_validation.1 ⟨some (.jstr "  "), some (.jarr [])⟩ (by decide),
   c8_amended_validation.2.1 ⟨some (.jstr "a@b.c"), none⟩ rfl,
   c8_amended_validation.2.2 ⟨some (.jstr "a@b.c"), none⟩ (by decide) rfl⟩

-- -----------------------------------------------------------------------
-- C9: best-effort delete-then-recreate.
-- -----------------------------------------------------------------------

/-- C9, counterexample: in the first revision's sync
(`POST /api/hubspot/vehicles/sync`), `deleteNotes` has no per-note catch:
with one old note whose archive call fails and one vehicle requested, the
handler ends in a server error and the creation step never runs. -/
theorem c9_counterexample :
    syncV1Run (fun _ => false) ["n1"] 1 = .error 500 ∧
    syncV1Run (fun _ => false) ["n1"] 1 ≠ .ok 1 := by
  constructor
  · rfl
  · intro h
    rw [show syncV1Run (fun _ => false) ["n1"] 1 =
      (Except.error 500 : Except Nat Nat) from rfl] at h
    exact Except.noConfusion h

/-- C9, amended: in `POST /vehicles/sync` (second revision) each note
deletion is individually try/caught, so the set of note bodies created is
independent of which deletions failed and one body is created per
requested vehicle; the first revision's route, by contrast, aborts on any
deletion failure (see the counterexample). -/
theorem c9_amended_best_effort (delOk delOk2 : String → Bool)
    (ids ids2 : List String) (vehicles : List (List (String × Json)))
    (now : String) :
    (syncV2Run delOk ids vehicles now).createdBodies =
      (syncV2Run delOk2 ids2 vehicles now).createdBodies ∧
    (syncV2Run delOk ids vehicles now).createdBodies.length = vehicles.length := by
  exact ⟨rfl, by simp [syncV2Run]⟩

-- -----------------------------------------------------------------------
-- C10: history ordering.
-- -----------------------------------------------------------------------

/-- Membership in an `insertLe` result. -/
theorem mem_insertLe {α : Type} (le : α → α → Bool) (x : α) (l : List α)
    (a : α) : a ∈ insertLe le x l ↔ a = x ∨ a ∈ l := by
  induction l with
  | nil => simp [insertLe]
  | cons y ys ih =>
    by_cases hxy : le x y
    · simp [insertLe, hxy]
    · simp [insertLe, hxy, ih]
      tauto

/-- `jsSortWith` permutes, so membership is preserved. -/
theorem mem_jsSortWith {α : Type} (le : α → α → Bool) (l : List α) (a : α) :
    a ∈ jsSortWith le l ↔ a ∈ l := by
  induction l with
  | nil => simp [jsSortWith]
  | cons x xs ih => simp [jsSortWith, mem_insertLe, ih]

/-- Inserting into a sorted list keeps it sorted, given transitivity of the
comparator on the elements involved and totality against the new
element. -/
theorem pairwise_insertLe {α : Type} (le : α → α → Bool) (P : α → Prop)
    (htrans : ∀ a b c, P a → P b → P c →
      le a b = true → le b c = true → le a c = true)
    (htot : ∀ a b, P a → P b → le a b = true ∨ le b a = true)
    (x : α) (hx : P x) (l : List α) (hl : ∀ a ∈ l, P a)
    (hp : l.Pairwise (fun a b => le a b = true)) :
    (insertLe le x l).Pairwise (fun a b => le a b = true) := by
  induction l with
  | nil => simp [insertLe]
  | cons y ys ih =>
    rcases List.pairwise_cons.mp hp with ⟨hy, hys⟩
    have hPy : P y := hl y (List.mem_cons_self y ys)
    have hlys : ∀ a ∈ ys, P a := fun a ha => hl a (List.mem_cons_of_mem y ha)
    by_cases hxy : le x y = true
    · rw [insertLe, if_pos hxy]
      refine List.pairwise_cons.mpr ⟨?_, hp⟩
      intro z hz
      rcases List.mem_cons.mp hz with rfl | hz2
      · exact hxy
      · exact htrans x y z hx hPy (hlys z hz2) hxy (hy z hz2)
    · rw [insertLe, if_neg hxy]
      refine List.pairwise_cons.mpr ⟨?_, ih hlys hys⟩
      intro z hz
      rcases (mem_insertLe le x ys z).mp hz with hzx | hz2
      · rcases htot x y hx hPy with h | h
        · exact absurd h hxy
        · rw [hzx]
          exact h
      · exact hy z hz2

/-- The stable comparator sort produces a comparator-sorted list whenever
the comparator is transitive and total on the list's elements. -/
theorem pairwise_jsSortWith {α : Type} (le : α → α → Bool) (P : α → Prop)
    (htrans : ∀ a b c, P a → P b → P c →
      le a b = true → le b c = true → le a c = true)
    (htot : ∀ a b, P a → P b → le a b = true ∨ le b a = true)
    (l : List α) (hl : ∀ a ∈ l, P a) :
    (jsSortWith le l).Pairwise (fun a b => le a b = true) := by
  induction l with
  | nil => simp [jsSortWith]
  | cons x xs ih =>
    have hx : P x := hl x (List.mem_cons_self x xs)
    have hlxs : ∀ a ∈ xs, P a := fun a ha => hl a (List.mem_cons_of_mem x ha)
    exact pairwise_insertLe le P htrans htot x hx (jsSortWith le xs)
      (fun a ha => hlxs a ((mem_jsSortWith le xs a).mp ha)) (ih hlxs)

/-- C10, counterexample: with one entry whose timestamp is unparseable
(`Date.parse` is `NaN`, so the comparator result is coerced to `+0` and the
stable sort leaves the pair in place) followed by one parseable entry, the
returned order violates the claimed adjacent ordering under the claim's
"unparseable counts as time 0" key. -/
theorem c10_counterexample :
    ¬ List.Chain' (fun a b => claimRefillKey dpBad b ≤ claimRefillKey dpBad a)
      (sortRefills dpBad [⟨"b", "", some "zzz", 0⟩, ⟨"g", "", some "g", 0⟩]) := by
  intro h
  rw [show sortRefills dpBad [⟨"b", "", some "zzz", 0⟩, ⟨"g", "", some "g", 0⟩] =
    [⟨"b", "", some "zzz", 0⟩, ⟨"g", "", some "g", 0⟩] from rfl] at h
  have h2 := List.chain'_pair.mp h
  rw [show claimRefillKey dpBad ⟨"g", "", some "g", 0⟩ = (5 : Int) from rfl,
    show claimRefillKey dpBad ⟨"b", "", some "zzz", 0⟩ = (0 : Int) from rfl] at h2
  omega

/-- C10, amended: whenever every entry's timestamp is missing, empty, or
actually parseable (no `NaN` keys), the refill history sort returns the
entries with adjacent parsed timestamps in non-increasing order — newest
first, missing timestamps counting as time 0. -/
theorem c10_amended_sorted (dp : String → Option Int) (xs : List RefillItem)
    (hall : ∀ x ∈ xs, (refillKey dp x).isSome = true) :
    List.Chain' (fun a b => (refillKey dp b).getD 0 ≤ (refillKey dp a).getD 0)
      (sortRefills dp xs) := by
  have hpair := pairwise_jsSortWith
    (fun a b => decide (refillCmp dp a b ≤ 0))
    (fun x => (refillKey dp x).isSome = true)
    (by
      intro a b c ha hb hc hab hbc
      rcases Option.isSome_iff_exists.mp ha with ⟨ka, hka⟩
      rcases Option.isSome_iff_exists.mp hb with ⟨kb, hkb⟩
      rcases Option.isSome_iff_exists.mp hc with ⟨kc, hkc⟩
      simp only [decide_eq_true_eq, refillCmp, hka, hkb, hkc] at hab hbc ⊢
      omega)
    (by
      intro a b ha hb
      rcases Option.isSome_iff_exists.mp ha with ⟨ka, hka⟩
      rcases Option.isSome_iff_exists.mp hb with ⟨kb, hkb⟩
      simp only [decide_eq_true_eq, refillCmp, hka, hkb]
      omega)
    xs hall
  have hpair2 : (sortRefills dp xs).Pairwise
      (fun a b => (refillKey dp b).getD 0 ≤ (refillKey dp a).getD 0) := by
    refine List.Pairwise.imp_of_mem ?_ hpair
    intro a b ha hb hab
    have hPa := hall a ((mem_jsSortWith _ xs a).mp ha)
    have hPb := hall b ((mem_jsSortWith _ xs b).mp hb)
    rcases Option.isSome_iff_exists.mp hPa with ⟨ka, hka⟩
    rcases Option.isSome_iff_exists.mp hPb with ⟨kb, hkb⟩
    simp only [decide_eq_true_eq, refillCmp, hka, hkb] at hab
    simp only [hka, hkb, Option.getD_some]
    omega
  exact List.Pairwise.chain' hpair2

/-- C10, witness: a three-entry history (two parseable timestamps, one
missing) all of whose keys are non-NaN, sorted by the code's comparator;
the amended theorem yields the newest-first adjacent ordering. -/
theorem c10_witness :
    (∀ x ∈ ([⟨"a", "", some "t1", 0⟩, ⟨"b", "", some "t2", 0⟩,
        ⟨"c", "", none, 0⟩] : List RefillItem),
      (refillKey (fun s => if s = "t1" then some 100 else
        if s = "t2" then some 200 else none) x).isSome = true) ∧
    List.Chain' (fun a b =>
      (refillKey (fun s => if s = "t1" then some 100 else
        if s = "t2" then some 200 else none) b).getD 0 ≤
      (refillKey (fun s => if s = "t1" then some 100 else
        if s = "t2" then some 200 else none) a).getD 0)
      (sortRefills (fun s => if s = "t1" then some 100 else
        if s = "t2" then some 200 else none)
        [⟨"a", "", some "t1", 0⟩, ⟨"b", "", some "t2", 0⟩, ⟨"c", "", none, 0⟩]) :=
  ⟨by decide, c10_amended_sorted
    (fun s => if s = "t1" then some 100 else if s = "t2" then some 200 else none)
    [⟨"a", "", some "t1", 0⟩, ⟨"b", "", some "t2", 0⟩, ⟨"c", "", none, 0⟩]
    (by decide)⟩

-- -----------------------------------------------------------------------
-- C1: round trip.  Printer/parser round-trip lemmas for the note bodies
-- the sync writes, then the characterization of decode-after-encode.
-- -----------------------------------------------------------------------

/-- A hex digit emitted by the escaper decodes to its value. -/
theorem hexDigitVal_hexChar (n : Nat) (h : n < 16) :
    hexDigitVal (hexChar n) = some n := by
  interval_cases n <;> rfl

/-- The string escaper round-trips through the fuel-indexed string parser,
for any sufficient fuel. -/
theorem parseStrAux_escape (cs : List Char) :
    ∀ (fuel : Nat) (rest : List Char), (escapeList cs).length < fuel →
      parseStrAux fuel (escapeList cs ++ '"' :: rest) = some (cs, rest) := by
  induction cs with
  | nil =>
    intro fuel rest hf
    obtain ⟨f, rfl⟩ : ∃ f, fuel = f + 1 := ⟨fuel - 1, by omega⟩
    rw [show escapeList [] = [] from rfl, List.nil_append]
    rfl
  | cons c cs ih =>
    intro fuel rest hf
    rw [show escapeList (c :: cs) = escapeChar c ++ escapeList cs from rfl] at hf ⊢
    rw [List.append_assoc]
    obtain ⟨f, rfl⟩ : ∃ f, fuel = f + 1 := ⟨fuel - 1, by
      have := List.length_append (escapeChar c) (escapeList cs)
      omega⟩
    rw [List.length_append] at hf
    by_cases h1 : c = '"'
    · subst h1
      rw [show escapeChar '"' = ['\\', '"'] from rfl] at hf ⊢
      simp only [List.cons_append, List.nil_append] at hf ⊢
      rw [show parseStrAux (f + 1) ('\\' :: '"' :: (escapeList cs ++ '"' :: rest)) =
        consStr '"' (parseStrAux f (escapeList cs ++ '"' :: rest)) from rfl]
      rw [ih f rest (by simp at hf; omega)]
      rfl
    · by_cases h2 : c = '\\'
      · subst h2
        rw [show escapeChar '\\' = ['\\', '\\'] from rfl] at hf ⊢
        simp only [List.cons_append, List.nil_append] at hf ⊢
        rw [show parseStrAux (f + 1) ('\\' :: '\\' :: (escapeList cs ++ '"' :: rest)) =
          consStr '\\' (parseStrAux f (escapeList cs ++ '"' :: rest)) from rfl]
        rw [ih f rest (by simp at hf; omega)]
        rfl
      · by_cases h3 : c = Char.ofNat 8
        · subst h3
          rw [show escapeChar (Char.ofNat 8) = ['\\', 'b'] from rfl] at hf ⊢
          simp only [List.cons_append, List.nil_append] at hf ⊢
          rw [show parseStrAux (f + 1) ('\\' :: 'b' :: (escapeList cs ++ '"' :: rest)) =
            consStr (Char.ofNat 8) (parseStrAux f (escapeList cs ++ '"' :: rest)) from rfl]
          rw [ih f rest (by simp at hf; omega)]
          rfl
        · by_cases h4 : c = '\t'
          · subst h4
            rw [show escapeChar '\t' = ['\\', 't'] from rfl] at hf ⊢
            simp only [List.cons_append, List.nil_append] at hf ⊢
            rw [show parseStrAux (f + 1) ('\\' :: 't' :: (escapeList cs ++ '"' :: rest)) =
              consStr '\t' (parseStrAux f (escapeList cs ++ '"' :: rest)) from rfl]
            rw [ih f rest (by simp at hf; omega)]
            rfl
          · by_cases h5 : c = '\n'
            · subst h5
              rw [show escapeChar '\n' = ['\\', 'n'] from rfl] at hf ⊢
              simp only [List.cons_append, List.nil_append] at hf ⊢
              rw [show parseStrAux (f + 1) ('\\' :: 'n' :: (escapeList cs ++ '"' :: rest)) =
                consStr '\n' (parseStrAux f (escapeList cs ++ '"' :: rest)) from rfl]
              rw [ih f rest (by simp at hf; omega)]
              rfl
            · by_cases h6 : c = Char.ofNat 12
              · subst h6
                rw [show escapeChar (Char.ofNat 12) = ['\\', 'f'] from rfl] at hf ⊢
                simp only [List.cons_append, List.nil_append] at hf ⊢
                rw [show parseStrAux (f + 1) ('\\' :: 'f' :: (escapeList cs ++ '"' :: rest)) =
                  consStr (Char.ofNat 12) (parseStrAux f (escapeList cs ++ '"' :: rest)) from rfl]
                rw [ih f rest (by simp at hf; omega)]
                rfl
              · by_cases h7 : c = '\r'
                · subst h7
                  rw [show escapeChar '\r' = ['\\', 'r'] from rfl] at hf ⊢
                  simp only [List.cons_append, List.nil_append] at hf ⊢
                  rw [show parseStrAux (f + 1) ('\\' :: 'r' :: (escapeList cs ++ '"' :: rest)) =
                    consStr '\r' (parseStrAux f (escapeList cs ++ '"' :: rest)) from rfl]
                  rw [ih f rest (by simp at hf; omega)]
                  rfl
                · by_cases h8 : c.toNat < 32
                  · have hesc : escapeChar c =
                        ['\\', 'u', '0', '0', hexChar (c.toNat / 16), hexChar (c.toNat % 16)] := by
                      rw [escapeChar, if_neg h1, if_neg h2, if_neg h3, if_neg h4,
                        if_neg h5, if_neg h6, if_neg h7, if_pos h8]
                    rw [hesc] at hf ⊢
                    simp only [List.cons_append, List.nil_append] at hf ⊢
                    have e1 : hexDigitVal (hexChar (c.toNat / 16)) = some (c.toNat / 16) :=
                      hexDigitVal_hexChar _ (by omega)
                    have e2 : hexDigitVal (hexChar (c.toNat % 16)) = some (c.toNat % 16) :=
                      hexDigitVal_hexChar _ (by omega)
                    have hdec : decodeEsc ('u' :: '0' :: '0' :: hexChar (c.toNat / 16) ::
                        hexChar (c.toNat % 16) :: (escapeList cs ++ '"' :: rest)) =
                        some (Char.ofNat (4096 * 0 + 256 * 0 + 16 * (c.toNat / 16) + c.toNat % 16),
                          escapeList cs ++ '"' :: rest) := by
                      rw [show decodeEsc ('u' :: '0' :: '0' :: hexChar (c.toNat / 16) ::
                          hexChar (c.toNat % 16) :: (escapeList cs ++ '"' :: rest)) =
                        (match hexDigitVal '0', hexDigitVal '0',
                            hexDigitVal (hexChar (c.toNat / 16)),
                            hexDigitVal (hexChar (c.toNat % 16)) with
                        | some a, some b, some c2, some d =>
                          some (Char.ofNat (4096 * a + 256 * b + 16 * c2 + d),
                            escapeList cs ++ '"' :: rest)
                        | _, _, _, _ => none) from rfl]
                      rw [e1, e2]
                      rfl
                    rw [show parseStrAux (f + 1) ('\\' :: 'u' :: '0' :: '0' ::
                        hexChar (c.toNat / 16) :: hexChar (c.toNat % 16) ::
                        (escapeList cs ++ '"' :: rest)) =
                      (match decodeEsc ('u' :: '0' :: '0' :: hexChar (c.toNat / 16) ::
                          hexChar (c.toNat % 16) :: (escapeList cs ++ '"' :: rest)) with
                      | some (d, r) => consStr d (parseStrAux f r)
                      | none => none) from rfl]
                    rw [hdec]
                    have e3 : 4096 * 0 + 256 * 0 + 16 * (c.toNat / 16) + c.toNat % 16 =
                        c.toNat := by omega
                    rw [e3, Char.ofNat_toNat]
                    rw [show (match (some (c, escapeList cs ++ '"' :: rest) :
                        Option (Char × List Char)) with
                      | some (d, r) => consStr d (parseStrAux f r)
                      | none => none) = consStr c (parseStrAux f (escapeList cs ++ '"' :: rest))
                      from rfl]
                    rw [ih f rest (by simp at hf; omega)]
                    rfl
                  · have hesc : escapeChar c = [c] := by
                      rw [escapeChar, if_neg h1, if_neg h2, if_neg h3, if_neg h4,
                        if_neg h5, if_neg h6, if_neg h7, if_neg h8]
                    rw [hesc] at hf ⊢
                    rw [List.singleton_append]
                    rw [show parseStrAux (f + 1) (c :: (escapeList cs ++ '"' :: rest)) =
                      if c = '"' then some ([], escapeList cs ++ '"' :: rest)
                      else if c = '\\' then
                        (match decodeEsc (escapeList cs ++ '"' :: rest) with
                        | some (d, r) => consStr d (parseStrAux f r)
                        | none => none)
                      else if c.toNat < 32 then none
                      else consStr c (parseStrAux f (escapeList cs ++ '"' :: rest)) from rfl]
                    rw [if_neg h1, if_neg h2, if_neg h8]
                    rw [ih f rest (by simp at hf; omega)]
                    rfl

/-- The string escaper round-trips through the string parser: parsing the
escaped characters followed by a closing quote recovers the original
characters and leaves the rest untouched. -/
theorem parse_escapeList (cs : List Char) (rest : List Char) :
    parseStrChars (escapeList cs ++ '"' :: rest) = some (cs, rest) := by
  rw [parseStrChars]
  exact parseStrAux_escape cs _ rest (by
    rw [List.length_append, List.length_cons]
    omega)

/-- Whitespace skipping is the identity on inputs starting with a quote. -/
theorem skipWsL_quote (X : List Char) : skipWsL ('"' :: X) = '"' :: X := rfl

/-- Whitespace skipping is the identity on inputs starting with a colon. -/
theorem skipWsL_colon (X : List Char) : skipWsL (':' :: X) = ':' :: X := rfl

/-- Whitespace skipping is the identity on inputs starting with a comma. -/
theorem skipWsL_comma (X : List Char) : skipWsL (',' :: X) = ',' :: X := rfl

/-- Whitespace skipping is the identity on inputs starting with a closing
brace. -/
theorem skipWsL_rbrace (X : List Char) : skipWsL ('}' :: X) = '}' :: X := rfl

/-- Parsing a printed string value consumes exactly the quoted literal. -/
theorem parseValue_quoted (f : Nat) (s : String) (rest : List Char) :
    parseValue (f + 1) ('"' :: (escapeList s.data ++ '"' :: rest)) =
      some (.jstr s, rest) := by
  rw [show parseValue (f + 1) ('"' :: (escapeList s.data ++ '"' :: rest)) =
    (parseStrChars (escapeList s.data ++ '"' :: rest)).map
      (fun p => (Json.jstr (String.mk p.1), p.2)) from rfl]
  rw [parse_escapeList]
  rfl

/-- One step of the object parser on a brace followed by a quoted key. -/
theorem parseValue_lbrace (f : Nat) (t : List Char) :
    parseValue (f + 1) ('{' :: '"' :: t) =
      (parseFields f ('"' :: t)).map (fun p => (Json.jobj p.1, p.2)) := rfl

/-- One step of the field parser on a non-final `"key":"value",` field. -/
theorem parseFields_cons_step (f : Nat) (k w : String) (t : List Char) :
    parseFields (f + 1 + 1)
      ('"' :: (escapeList k.data ++ '"' :: ':' :: '"' ::
        (escapeList w.data ++ '"' :: ',' :: t))) =
      (parseFields (f + 1) t).map (fun p => ((k, Json.jstr w) :: p.1, p.2)) := by
  simp only [parseFields, skipWsL_quote, parse_escapeList, skipWsL_colon,
    parseValue_quoted, skipWsL_comma, stringMk_data]

/-- One step of the field parser on a final `"key":"value"}` field. -/
theorem parseFields_last_step (f : Nat) (k w : String) (t : List Char) :
    parseFields (f + 1 + 1)
      ('"' :: (escapeList k.data ++ '"' :: ':' :: '"' ::
        (escapeList w.data ++ '"' :: '}' :: t))) =
      some ([(k, Json.jstr w)], t) := by
  simp only [parseFields, skipWsL_quote, parse_escapeList, skipWsL_colon,
    parseValue_quoted, skipWsL_rbrace, stringMk_data]

/-- Parsing the printed fields of a string-valued object (followed by the
closing brace) recovers exactly those fields, for any sufficient fuel. -/
theorem parseFields_jstr (ps : List (String × String)) :
    ∀ (g : Nat) (rest : List Char), ps ≠ [] → ps.length ≤ g →
      parseFields (g + 1)
        (printFieldsSep (ps.map (fun p => (p.1, Json.jstr p.2))) ++ '}' :: rest) =
        some (ps.map (fun p => (p.1, Json.jstr p.2)), rest) := by
  induction ps with
  | nil =>
    intro g rest hne _
    exact absurd rfl hne
  | cons p ps ih =>
    intro g rest _ hlen
    obtain ⟨k, v⟩ := p
    obtain ⟨g2, rfl⟩ : ∃ g2, g = g2 + 1 := ⟨g - 1, by simp at hlen; omega⟩
    cases ps with
    | nil =>
      simp only [List.map_cons, List.map_nil, printFieldsSep, printFieldsTail,
        printChars, quoteChars, List.cons_append, List.nil_append,
        List.append_assoc, List.append_nil]
      simp only [parseFields, skipWsL_quote, parse_escapeList, skipWsL_colon,
        parseValue_quoted, skipWsL_rbrace, stringMk_data]
    | cons q qs =>
      have hih := ih g2 rest (by simp) (by simp at hlen ⊢; omega)
      simp only [List.map_cons, printFieldsSep, printFieldsTail, printChars,
        quoteChars, List.cons_append, List.nil_append, List.append_assoc] at hih ⊢
      rw [parseFields_cons_step, hih]
      rfl

/-- Parsing the printed form of a non-empty string-valued object recovers
the object, for any sufficient fuel. -/
theorem parseValue_jobj (ps : List (String × String)) (g : Nat) (rest : List Char)
    (hne : ps ≠ []) (hlen : ps.length + 1 ≤ g) :
    parseValue (g + 1)
      ('{' :: (printFieldsSep (ps.map (fun p => (p.1, Json.jstr p.2))) ++ '}' :: rest)) =
      some (.jobj (ps.map (fun p => (p.1, Json.jstr p.2))), rest) := by
  obtain ⟨g2, rfl⟩ : ∃ g2, g = g2 + 1 := ⟨g - 1, by omega⟩
  obtain ⟨⟨k, v⟩, ps2, rfl⟩ : ∃ p ps2, ps = p :: ps2 := by
    cases ps with
    | nil => exact absurd rfl hne
    | cons a b => exact ⟨a, b, rfl⟩
  have hF := parseFields_jstr ((k, v) :: ps2) g2 rest (by simp)
    (by simp at hlen ⊢; omega)
  simp only [List.map_cons, printFieldsSep, printFieldsTail, printChars,
    quoteChars, List.cons_append, List.nil_append, List.append_assoc] at hF ⊢
  simp only [parseValue_lbrace, hF, Option.map_some']

/-- The printed fields of an object are no shorter than the field count. -/
theorem printFieldsSep_length (fs : List (String × Json)) :
    fs.length ≤ (printFieldsSep fs).length := by
  induction fs with
  | nil => simp [printFieldsSep]
  | cons p rest ih =>
    obtain ⟨k, v⟩ := p
    cases rest with
    | nil =>
      simp [printFieldsSep, printFieldsTail, quoteChars, List.length_append]
    | cons q qs =>
      have ht : printFieldsTail (q :: qs) = ',' :: printFieldsSep (q :: qs) := by
        obtain ⟨k2, v2⟩ := q
        rfl
      simp only [printFieldsSep, ht, List.length_append, List.length_cons,
        quoteChars, List.length_cons] at ih ⊢
      omega

/-- `JSON.parse` recovers every note body the sync encoder writes: the
printed form of a non-empty string-valued object parses back to exactly
that object. -/
theorem jsonParse_jobj_strs (ps : List (String × String)) (hne : ps ≠ []) :
    jsonParse (String.mk (printChars (.jobj (ps.map (fun p => (p.1, Json.jstr p.2)))))) =
      some (.jobj (ps.map (fun p => (p.1, Json.jstr p.2)))) := by
  have hPC : printChars (Json.jobj (ps.map (fun p => (p.1, Json.jstr p.2)))) =
      '{' :: (printFieldsSep (ps.map (fun p => (p.1, Json.jstr p.2))) ++ '}' :: []) := rfl
  have hlen : ps.length + 1 ≤
      ('{' :: (printFieldsSep (ps.map (fun p => (p.1, Json.jstr p.2))) ++ '}' :: [])).length := by
    have h1 := printFieldsSep_length (ps.map (fun p => (p.1, Json.jstr p.2)))
    simp only [List.length_map] at h1
    simp only [List.length_cons, List.length_append]
    omega
  have happ := parseValue_jobj ps
    (('{' :: (printFieldsSep (ps.map (fun p => (p.1, Json.jstr p.2))) ++ '}' :: [])).length)
    [] hne hlen
  rw [jsonParse]
  rw [show (String.mk (printChars (Json.jobj (ps.map (fun p => (p.1, Json.jstr p.2)))))).data =
    printChars (Json.jobj (ps.map (fun p => (p.1, Json.jstr p.2)))) from rfl]
  rw [hPC, happ]
  rfl

/-- `normalizeVehicleProps` on the request object of a `VehicleRecord`:
each recognized field passes through unchanged and the name resolves to the
record's own truthy name or the derived one. -/
theorem normalize_toObj (r : VehicleRecord) (now : String) :
    normalizeVehicleProps now (toObj r) =
      ⟨expectedName r now, r.make, r.model, r.year, r.color, r.plate⟩ := by
  obtain ⟨n, mk2, md, yr, cl, pl⟩ := r
  cases n <;> cases mk2 <;> cases md <;> cases yr <;> cases cl <;> cases pl <;>
    simp [normalizeVehicleProps, toObj, jsOwnString, jsGet, expectedName,
      jsToString, optPart]

/-- Reading the six recognized fields back out of a decoded note object. -/
theorem jsFieldRead_noteObj (nm mk2 md yr cl pl : String) :
    jsFieldRead (Json.jobj [("name", Json.jstr nm), ("make", Json.jstr mk2),
      ("model", Json.jstr md), ("year", Json.jstr yr), ("color", Json.jstr cl),
      ("plate", Json.jstr pl)]) "make" = mk2 ∧
    jsFieldRead (Json.jobj [("name", Json.jstr nm), ("make", Json.jstr mk2),
      ("model", Json.jstr md), ("year", Json.jstr yr), ("color", Json.jstr cl),
      ("plate", Json.jstr pl)]) "model" = md ∧
    jsFieldRead (Json.jobj [("name", Json.jstr nm), ("make", Json.jstr mk2),
      ("model", Json.jstr md), ("year", Json.jstr yr), ("color", Json.jstr cl),
      ("plate", Json.jstr pl)]) "year" = yr ∧
    jsFieldRead (Json.jobj [("name", Json.jstr nm), ("make", Json.jstr mk2),
      ("model", Json.jstr md), ("year", Json.jstr yr), ("color", Json.jstr cl),
      ("plate", Json.jstr pl)]) "color" = cl ∧
    jsFieldRead (Json.jobj [("name", Json.jstr nm), ("make", Json.jstr mk2),
      ("model", Json.jstr md), ("year", Json.jstr yr), ("color", Json.jstr cl),
      ("plate", Json.jstr pl)]) "plate" = pl ∧
    jsFieldRead (Json.jobj [("name", Json.jstr nm), ("make", Json.jstr mk2),
      ("model", Json.jstr md), ("year", Json.jstr yr), ("color", Json.jstr cl),
      ("plate", Json.jstr pl)]) "name" = nm := by
  refine ⟨?_, ?_, ?_, ?_, ?_, ?_⟩ <;>
    simp [jsFieldRead, jsGet, jsToString]

/-- C1, counterexample: the record with only make `Ford` and model `F150`
populated (two recognized fields, no explicit name) does not round-trip as
the claim states — the decoded record carries the derived name
`Ford F150` where the claim demands the empty string. -/
theorem c1_counterexample :
    ¬ roundTripClaim ⟨none, some "Ford", some "F150", none, none, none⟩ "0" "n1" := by
  unfold roundTripClaim
  decide

/-- C1, amended: decoding the note body the sync encoder writes for any
`VehicleRecord` yields exactly one record that agrees with the original on
make, model, year, color and plate (absent fields normalized to the empty
string); the name is the record's own name when that is non-empty and the
derived `year make model` (or `Vehicle <now>`) name otherwise. -/
theorem c1_amended_round_trip (r : VehicleRecord) (now id : String) :
    parseVehiclesFromNotes [⟨id, some (encodeVehicleSync now (toObj r))⟩] =
      [⟨id, r.make.getD "", r.model.getD "", r.year.getD "", r.color.getD "",
        r.plate.getD "", expectedName r now⟩] := by
  have henc : encodeVehicleSync now (toObj r) =
      String.mk (printChars (Json.jobj
        (([("name", expectedName r now), ("make", r.make.getD ""),
          ("model", r.model.getD ""), ("year", r.year.getD ""),
          ("color", r.color.getD ""), ("plate", r.plate.getD "")] :
            List (String × String)).map (fun p => (p.1, Json.jstr p.2))))) := by
    rw [encodeVehicleSync, normalize_toObj]
    rfl
  have hparse : jsonParse (encodeVehicleSync now (toObj r)) =
      some (Json.jobj [("name", Json.jstr (expectedName r now)),
        ("make", Json.jstr (r.make.getD "")), ("model", Json.jstr (r.model.getD "")),
        ("year", Json.jstr (r.year.getD "")), ("color", Json.jstr (r.color.getD "")),
        ("plate", Json.jstr (r.plate.getD ""))]) := by
    rw [henc]
    have h := jsonParse_jobj_strs
      ([("name", expectedName r now), ("make", r.make.getD ""),
        ("model", r.model.getD ""), ("year", r.year.getD ""),
        ("color", r.color.getD ""), ("plate", r.plate.getD "")] :
          List (String × String)) (by simp)
    simpa using h
  have hne : encodeVehicleSync now (toObj r) ≠ "" := by
    rw [henc]
    intro h
    have hd := congrArg String.data h
    rw [show (String.mk (printChars (Json.jobj
      (([("name", expectedName r now), ("make", r.make.getD ""),
        ("model", r.model.getD ""), ("year", r.year.getD ""),
        ("color", r.color.getD ""), ("plate", r.plate.getD "")] :
          List (String × String)).map (fun p => (p.1, Json.jstr p.2)))))).data =
      '{' :: (printFieldsSep
        (([("name", expectedName r now), ("make", r.make.getD ""),
          ("model", r.model.getD ""), ("year", r.year.getD ""),
          ("color", r.color.getD ""), ("plate", r.plate.getD "")] :
            List (String × String)).map (fun p => (p.1, Json.jstr p.2))) ++ ['}'])
      from rfl] at hd
    exact List.noConfusion hd
  obtain ⟨hmk, hmd, hyr, hcl, hpl, hnm⟩ :=
    jsFieldRead_noteObj (expectedName r now) (r.make.getD "") (r.model.getD "")
      (r.year.getD "") (r.color.getD "") (r.plate.getD "")
  have hv : noteToVehicle ⟨id, some (encodeVehicleSync now (toObj r))⟩ =
      some ⟨id, r.make.getD "", r.model.getD "", r.year.getD "", r.color.getD "",
        r.plate.getD "", expectedName r now⟩ := by
    rw [noteToVehicle]
    simp only [Option.getD_some]
    rw [if_neg hne, hparse]
    simp only [hmk, hmd, hyr, hcl, hpl, hnm]
  simp only [parseVehiclesFromNotes, hv]

end GasBff
